import Mathlib

/-!
# ay_explicit_memset: a shallow embedding and its contract

Source files embedded here:

* `include/ay/explicit-memset.h`: `ay_explicit_memset` with its build-time
  strategy selection (the `#if` ladder of lines 102-152);
* `tests/explicit-memset.test.c`: `secret`, `SECRETCOUNT`, `SECRETBYTES`
  and `count_secrets`.

Memory is a flat list of bytes, a pointer is an index into it.  A store
to an index outside the list is dropped (in C it is undefined behaviour);
the statements about the bytes of a region assume the region lies inside the
memory.  `int` and `size_t` values are `Int`
and `Nat`: the function does no arithmetic on them that could wrap, the
only conversion is `(unsigned char)c`.
-/

namespace AyExplicitMemset

/-! ## Data model -/

/-- A memory: the bytes of the address space that holds the buffer. -/
abbrev Mem := List Nat

/-- The conversion `(unsigned char)c` of an `int`: reduction modulo 256
into `0..255`. -/
def unsigned_char (c : Int) : Nat := (c % 256).toNat

/-- What a call does that is visible outside the abstract memory: calls
to functions defined elsewhere, the `asm` statement and every access made
through a `volatile` lvalue. -/
inductive Event where
  | call_explicit_memset (str : Nat) (c : Int) (n : Nat)
  | call_memset_s (s smax : Nat) (c : Int) (n : Nat)
  | call_SecureZeroMemory (ptr cnt : Nat)
  | call_explicit_bzero (s n : Nat)
  | call_memset (str : Nat) (c : Int) (n : Nat)
  | call_weak_sym_to_avoid_optimization (str n : Nat)
  | asm_memory_barrier (str : Nat)
  | volatile_store (addr v : Nat)
  deriving DecidableEq

/-- The state a statement runs in: the memory and the events so far. -/
structure Machine where
  mem : Mem
  trace : List Event
  deriving DecidableEq

/-- The branch of the `#if` ladder that fills the buffer (ghost value,
set where the branch is taken). -/
inductive Strategy where
  | explicit_memset
  | memset_s
  | SecureZeroMemory
  | explicit_bzero
  | memset_barrier
  | volatile_loop
  deriving DecidableEq

/-- The build target: the preprocessor symbols `ay_explicit_memset` tests
(`true` = defined), and whether the weak symbol
`weak_sym_to_avoid_optimization`, which the header declares and never
defines, resolved to a definition at link time. -/
structure Target where
  HAVE_EXPLICIT_MEMSET : Bool
  __STDC_LIB_EXT1__ : Bool
  _WIN32 : Bool
  HAVE_EXPLICIT_BZERO : Bool
  __GNUC__ : Bool
  HAVE_WEAK_LINKING_SUPPORT : Bool
  weak_sym_to_avoid_optimization : Bool
  deriving DecidableEq

/-- The outcome of a call: returned pointer, final memory, the events of the
call and the strategy that ran. -/
structure Result where
  ret : Nat
  mem : Mem
  trace : List Event
  strategy : Strategy
  deriving DecidableEq

/-! ## The C library and platform functions the code calls

They are not part of the repository; each is modelled by its documented
contract, stated position by position and independently of the loop of the
fallback branch. -/

/-- The memory in which the `n` bytes from `a` on hold `v` and every
other byte is the one of `m`. -/
def fill_bytes (m : Mem) (a n v : Nat) : Mem :=
  m.mapIdx fun i b => if a ≤ i ∧ i < a + n then v else b

/-- ISO C `memset(str, c, n)`: stores `(unsigned char)c` into each of the
first `n` bytes at `str`, returns `str`. -/
def memset (str : Nat) (c : Int) (n : Nat) (s : Machine) : Nat × Machine :=
  (str, ⟨fill_bytes s.mem str n (unsigned_char c), s.trace ++ [Event.call_memset str c n]⟩)

/-- NetBSD `explicit_memset(b, c, len)`: writes `len` bytes of value `c`
(converted to an unsigned char) to `b`, returns `b`. -/
def explicit_memset (str : Nat) (c : Int) (n : Nat) (s : Machine) : Nat × Machine :=
  (str, ⟨fill_bytes s.mem str n (unsigned_char c),
    s.trace ++ [Event.call_explicit_memset str c n]⟩)

/-- C11 K.3.7.4.1 `memset_s(s, smax, c, n)`: stores `(unsigned char)c` into
each of the first `n` bytes when `n ≤ smax`; when `n > smax` (a
runtime-constraint violation) into each of the first `smax` bytes, and
returns nonzero.  Returns the `errno_t`.  `RSIZE_MAX` is taken to be
`SIZE_MAX` (K.3.4 allows it: no object size is then a violation), so the
comparisons of `smax` and `n` with `RSIZE_MAX` never fail and are left out. -/
def memset_s (s smax : Nat) (c : Int) (n : Nat) (st : Machine) : Int × Machine :=
  if n ≤ smax then
    (0, ⟨fill_bytes st.mem s n (unsigned_char c), st.trace ++ [Event.call_memset_s s smax c n]⟩)
  else
    (1, ⟨fill_bytes st.mem s smax (unsigned_char c),
      st.trace ++ [Event.call_memset_s s smax c n]⟩)

/-- Win32 `SecureZeroMemory(ptr, cnt)`: fills `cnt` bytes at `ptr` with
zeros, returns `ptr`. -/
def SecureZeroMemory (ptr cnt : Nat) (s : Machine) : Nat × Machine :=
  (ptr, ⟨fill_bytes s.mem ptr cnt 0, s.trace ++ [Event.call_SecureZeroMemory ptr cnt]⟩)

/-- The `explicit_bzero(s, n)` of glibc and the BSDs: writes `n` zero bytes
at `s`; no return value. -/
def explicit_bzero (s n : Nat) (st : Machine) : Machine :=
  ⟨fill_bytes st.mem s n 0, st.trace ++ [Event.call_explicit_bzero s n]⟩

/-- Modelled from the spec: the definition of `weak_sym_to_avoid_optimization`,
which no file of the repository gives.  The spec calls it "an external,
unknown function" that "might inspect the buffer": the call is an event and
the memory is left as it is. -/
def weak_sym_to_avoid_optimization (str n : Nat) (s : Machine) : Machine :=
  ⟨s.mem, s.trace ++ [Event.call_weak_sym_to_avoid_optimization str n]⟩

/-- The statement `__asm__ __volatile__("" : : "r"(str) : "memory")`: an
empty instruction sequence; it is an event and changes no byte. -/
def asm_memory_barrier (str : Nat) (s : Machine) : Machine :=
  ⟨s.mem, s.trace ++ [Event.asm_memory_barrier str]⟩

/-! ## `ay_explicit_memset` -/

/-- The assignment `vstr[i] = (unsigned char)c` through the volatile
pointer `vstr`. -/
def volatile_store (vstr i v : Nat) (s : Machine) : Machine :=
  ⟨s.mem.set (vstr + i) v, s.trace ++ [Event.volatile_store (vstr + i) v]⟩

/-- The loop `for (size_t i = 0; i < n; ++i) vstr[i] = (unsigned char)c;`
from the value `i` of its counter on. -/
def volatile_loop (vstr : Nat) (c : Int) (n : Nat) (i : Nat) (s : Machine) : Machine :=
  if i < n then
    volatile_loop vstr c n (i + 1) (volatile_store vstr i (unsigned_char c) s)
  else
    s
termination_by n - i

/-- The block `if (c == 0) { ... }` of lines 111-118: the returns it makes,
`none` when control falls through it. -/
def zero_fill_fast_path (t : Target) (str : Nat) (c : Int) (n : Nat) (s : Machine) :
    Option Result :=
  if c = 0 then
    if t._WIN32 then
      let r := SecureZeroMemory str n s
      some ⟨r.1, r.2.mem, r.2.trace, Strategy.SecureZeroMemory⟩
    else if t.HAVE_EXPLICIT_BZERO then
      let s1 := explicit_bzero str n s
      some ⟨str, s1.mem, s1.trace, Strategy.explicit_bzero⟩
    else
      none
  else
    none

/-- The function `ay_explicit_memset(str, c, n)` of `explicit-memset.h`, as
compiled for target `t` and run on memory `m`. -/
def ay_explicit_memset (t : Target) (str : Nat) (c : Int) (n : Nat) (m : Mem) : Result :=
  let s : Machine := ⟨m, []⟩
  if t.HAVE_EXPLICIT_MEMSET then
    let r := explicit_memset str c n s
    ⟨r.1, r.2.mem, r.2.trace, Strategy.explicit_memset⟩
  else if t.__STDC_LIB_EXT1__ then
    let r := memset_s str n c n s
    ⟨str, r.2.mem, r.2.trace, Strategy.memset_s⟩
  else
    match zero_fill_fast_path t str c n s with
    | some r => r
    | none =>
      if t.__GNUC__ then
        let r := memset str c n s
        let result_of_memset := r.1
        let s1 := r.2
        let s2 :=
          if t.HAVE_WEAK_LINKING_SUPPORT then
            if t.weak_sym_to_avoid_optimization then
              weak_sym_to_avoid_optimization str n s1
            else s1
          else s1
        let s3 := asm_memory_barrier str s2
        ⟨result_of_memset, s3.mem, s3.trace, Strategy.memset_barrier⟩
      else
        let s1 := volatile_loop str c n 0 s
        ⟨str, s1.mem, s1.trace, Strategy.volatile_loop⟩

/-- The target on which no tested symbol is defined: the volatile
byte-by-byte loop is what gets compiled. -/
def fallback_target : Target :=
  ⟨false, false, false, false, false, false, false⟩

/-! ## The test program's helpers (`explicit-memset.test.c`) -/

/-- The array `secret`: 128 bits of random data. -/
def secret : List Nat :=
  [0xa0, 0x6c, 0x0c, 0x81, 0xba, 0xd8, 0x5b, 0x0c,
   0xb0, 0xd6, 0xd4, 0xe3, 0xeb, 0x52, 0x5f, 0x96]

/-- The value of `sizeof(secret)`. -/
def sizeof_secret : Nat := secret.length

/-- The enumerator `SECRETCOUNT`. -/
def SECRETCOUNT : Nat := 64

/-- The enumerator `SECRETBYTES = SECRETCOUNT * sizeof(secret)`. -/
def SECRETBYTES : Nat := SECRETCOUNT * sizeof_secret

/-- The `n` bytes of `m` from address `p` on. -/
def read_bytes (m : Mem) (p n : Nat) : List Nat := (m.drop p).take n

/-- ISO C `memcmp` on two byte sequences of one length: zero when they
agree, else the difference of the first pair of bytes that differ. -/
def memcmp : List Nat → List Nat → Int
  | x :: xs, y :: ys => if x = y then memcmp xs ys else (x : Int) - (y : Int)
  | _, _ => 0

/-- The loop of `count_secrets` from the value `i` of its counter on, `res`
being the count so far. -/
def count_secrets_loop (m : Mem) (buf : Nat) (i : Nat) (res : Int) : Int :=
  if i < SECRETCOUNT then
    count_secrets_loop m buf (i + 1)
      (if memcmp (read_bytes m (buf + i * sizeof_secret) sizeof_secret) secret = 0
        then res + 1 else res)
  else
    res
termination_by SECRETCOUNT - i

/-- The function `count_secrets(buf)`: the number of 16-byte blocks among the
`SECRETCOUNT` blocks at `buf` that equal `secret`. -/
def count_secrets (m : Mem) (buf : Nat) : Int :=
  count_secrets_loop m buf 0 0


/-! ## Lemmas on the memory operations -/

theorem length_fill_bytes (m : Mem) (a n v : Nat) : (fill_bytes m a n v).length = m.length := by
  simp [fill_bytes]

theorem getElem?_fill_bytes (m : Mem) (a n v i : Nat) :
    (fill_bytes m a n v)[i]? = if a ≤ i ∧ i < a + n then m[i]?.map (fun _ => v) else m[i]? := by
  unfold fill_bytes
  rw [List.getElem?_mapIdx]
  by_cases h : a ≤ i ∧ i < a + n
  · simp [h]
  · simp only [h, if_false]
    cases m[i]? <;> simp

theorem fill_bytes_zero (m : Mem) (a v : Nat) : fill_bytes m a 0 v = m := by
  apply List.ext_getElem?
  intro i
  rw [getElem?_fill_bytes]
  have : ¬ (a ≤ i ∧ i < a + 0) := by omega
  simp [this]

theorem fill_bytes_idem (m : Mem) (a n v : Nat) :
    fill_bytes (fill_bytes m a n v) a n v = fill_bytes m a n v := by
  apply List.ext_getElem?
  intro i
  simp only [getElem?_fill_bytes]
  by_cases h : a ≤ i ∧ i < a + n
  · simp only [h, if_true]
    cases m[i]? <;> simp
  · simp [h]

/-- The memory after the loop, byte by byte. -/
theorem getElem?_volatile_loop (vstr : Nat) (c : Int) (n i : Nat) (s : Machine) (j : Nat) :
    (volatile_loop vstr c n i s).mem[j]? =
      if vstr + i ≤ j ∧ j < vstr + n then s.mem[j]?.map (fun _ => unsigned_char c)
      else s.mem[j]? := by
  generalize h : n - i = k
  induction k generalizing i s with
  | zero =>
    unfold volatile_loop
    have h1 : ¬ i < n := by omega
    have h2 : ¬ (vstr + i ≤ j ∧ j < vstr + n) := by omega
    simp [h1, h2]
  | succ k ih =>
    unfold volatile_loop
    have h1 : i < n := by omega
    simp only [h1, if_true]
    rw [ih (i + 1) _ (by omega)]
    simp only [volatile_store]
    by_cases hj : vstr + i = j
    · subst hj
      have h2 : ¬ (vstr + (i + 1) ≤ vstr + i ∧ vstr + i < vstr + n) := by omega
      have h3 : (vstr + i ≤ vstr + i ∧ vstr + i < vstr + n) := by omega
      simp only [h2, h3, if_false, if_true]
      rw [List.getElem?_set_self']
      cases s.mem[vstr + i]? <;> simp
    · rw [List.getElem?_set_ne hj]
      by_cases h4 : vstr + i ≤ j ∧ j < vstr + n
      · have h5 : vstr + (i + 1) ≤ j ∧ j < vstr + n := by omega
        simp [h4, h5]
      · have h5 : ¬ (vstr + (i + 1) ≤ j ∧ j < vstr + n) := by omega
        simp [h4, h5]

/-- The events of the loop: one volatile store per index from `i` to `n - 1`,
in increasing order. -/
theorem trace_volatile_loop (vstr : Nat) (c : Int) (n i : Nat) (s : Machine) :
    (volatile_loop vstr c n i s).trace =
      s.trace ++ (List.range' i (n - i)).map
        (fun k => Event.volatile_store (vstr + k) (unsigned_char c)) := by
  generalize h : n - i = k
  induction k generalizing i s with
  | zero =>
    unfold volatile_loop
    have h1 : ¬ i < n := by omega
    simp [h1]
  | succ k ih =>
    unfold volatile_loop
    have h1 : i < n := by omega
    simp only [h1, if_true]
    rw [ih (i + 1) _ (by omega)]
    simp [volatile_store, List.range'_succ]

/-- The loop run from `i = 0` leaves the memory that `fill_bytes` describes. -/
theorem volatile_loop_mem (vstr : Nat) (c : Int) (n : Nat) (s : Machine) :
    (volatile_loop vstr c n 0 s).mem = fill_bytes s.mem vstr n (unsigned_char c) := by
  apply List.ext_getElem?
  intro j
  rw [getElem?_volatile_loop, getElem?_fill_bytes]
  simp

theorem unsigned_char_zero : unsigned_char 0 = 0 := by decide

/-- On every target the final memory is the initial one with the `n` bytes
at `str` replaced by `(unsigned char)c`. -/
theorem ay_explicit_memset_mem (t : Target) (str : Nat) (c : Int) (n : Nat) (m : Mem) :
    (ay_explicit_memset t str c n m).mem = fill_bytes m str n (unsigned_char c) := by
  obtain ⟨f1, f2, f3, f4, f5, f6, f7⟩ := t
  by_cases h0 : c = 0
  · subst h0
    cases f1 <;> cases f2 <;> cases f3 <;> cases f4 <;> cases f5 <;> cases f6 <;> cases f7 <;>
      simp [ay_explicit_memset, zero_fill_fast_path, explicit_memset, memset_s, SecureZeroMemory,
        explicit_bzero, memset, weak_sym_to_avoid_optimization, asm_memory_barrier,
        volatile_loop_mem, unsigned_char_zero]
  · cases f1 <;> cases f2 <;> cases f3 <;> cases f4 <;> cases f5 <;> cases f6 <;> cases f7 <;>
      simp [ay_explicit_memset, zero_fill_fast_path, explicit_memset, memset_s, h0,
        memset, weak_sym_to_avoid_optimization, asm_memory_barrier, volatile_loop_mem]

/-- On every target the call returns `str`. -/
theorem ay_explicit_memset_ret (t : Target) (str : Nat) (c : Int) (n : Nat) (m : Mem) :
    (ay_explicit_memset t str c n m).ret = str := by
  obtain ⟨f1, f2, f3, f4, f5, f6, f7⟩ := t
  by_cases h0 : c = 0
  · subst h0
    cases f1 <;> cases f2 <;> cases f3 <;> cases f4 <;> cases f5 <;> cases f6 <;> cases f7 <;>
      simp [ay_explicit_memset, zero_fill_fast_path, explicit_memset, memset_s, SecureZeroMemory,
        explicit_bzero, memset, weak_sym_to_avoid_optimization, asm_memory_barrier]
  · cases f1 <;> cases f2 <;> cases f3 <;> cases f4 <;> cases f5 <;> cases f6 <;> cases f7 <;>
      simp [ay_explicit_memset, zero_fill_fast_path, explicit_memset, memset_s, h0,
        memset, weak_sym_to_avoid_optimization, asm_memory_barrier]

/-- The events of a call contain a volatile store only when bytes are
requested. -/
theorem ay_explicit_memset_trace_zero (t : Target) (str : Nat) (c : Int) (m : Mem) (a v : Nat) :
    Event.volatile_store a v ∉ (ay_explicit_memset t str c 0 m).trace := by
  obtain ⟨f1, f2, f3, f4, f5, f6, f7⟩ := t
  by_cases h0 : c = 0
  · subst h0
    cases f1 <;> cases f2 <;> cases f3 <;> cases f4 <;> cases f5 <;> cases f6 <;> cases f7 <;>
      simp [ay_explicit_memset, zero_fill_fast_path, explicit_memset, memset_s, SecureZeroMemory,
        explicit_bzero, memset, weak_sym_to_avoid_optimization, asm_memory_barrier,
        trace_volatile_loop]
  · cases f1 <;> cases f2 <;> cases f3 <;> cases f4 <;> cases f5 <;> cases f6 <;> cases f7 <;>
      simp [ay_explicit_memset, zero_fill_fast_path, explicit_memset, memset_s, h0,
        memset, weak_sym_to_avoid_optimization, asm_memory_barrier, trace_volatile_loop]

/-- The events of a call that ran the volatile loop. -/
theorem ay_explicit_memset_trace_loop (t : Target) (str : Nat) (c : Int) (n : Nat) (m : Mem)
    (h : (ay_explicit_memset t str c n m).strategy = Strategy.volatile_loop) :
    (ay_explicit_memset t str c n m).trace =
      (List.range n).map (fun i => Event.volatile_store (str + i) (unsigned_char c)) := by
  obtain ⟨f1, f2, f3, f4, f5, f6, f7⟩ := t
  by_cases h0 : c = 0
  · subst h0
    revert h
    cases f1 <;> cases f2 <;> cases f3 <;> cases f4 <;> cases f5 <;> cases f6 <;> cases f7 <;>
      simp [ay_explicit_memset, zero_fill_fast_path, explicit_memset, memset_s, SecureZeroMemory,
        explicit_bzero, memset, weak_sym_to_avoid_optimization, asm_memory_barrier,
        trace_volatile_loop, List.range_eq_range']
  · revert h
    cases f1 <;> cases f2 <;> cases f3 <;> cases f4 <;> cases f5 <;> cases f6 <;> cases f7 <;>
      simp [ay_explicit_memset, zero_fill_fast_path, explicit_memset, memset_s, h0,
        memset, weak_sym_to_avoid_optimization, asm_memory_barrier, trace_volatile_loop,
        List.range_eq_range']

/-- The strategy of a call is a function of the target and of the test
`c == 0`. -/
theorem ay_explicit_memset_strategy (t : Target) (str : Nat) (c : Int) (n : Nat) (m : Mem) :
    (ay_explicit_memset t str c n m).strategy =
      if t.HAVE_EXPLICIT_MEMSET then Strategy.explicit_memset
      else if t.__STDC_LIB_EXT1__ then Strategy.memset_s
      else if c = 0 ∧ t._WIN32 then Strategy.SecureZeroMemory
      else if c = 0 ∧ t.HAVE_EXPLICIT_BZERO then Strategy.explicit_bzero
      else if t.__GNUC__ then Strategy.memset_barrier
      else Strategy.volatile_loop := by
  obtain ⟨f1, f2, f3, f4, f5, f6, f7⟩ := t
  by_cases h0 : c = 0
  · subst h0
    cases f1 <;> cases f2 <;> cases f3 <;> cases f4 <;> cases f5 <;> cases f6 <;> cases f7 <;>
      simp [ay_explicit_memset, zero_fill_fast_path, explicit_memset, memset_s, SecureZeroMemory,
        explicit_bzero, memset, weak_sym_to_avoid_optimization, asm_memory_barrier]
  · cases f1 <;> cases f2 <;> cases f3 <;> cases f4 <;> cases f5 <;> cases f6 <;> cases f7 <;>
      simp [ay_explicit_memset, zero_fill_fast_path, explicit_memset, memset_s, h0,
        memset, weak_sym_to_avoid_optimization, asm_memory_barrier]

/-- The events of a call, branch by branch of the `#if` ladder. -/
theorem ay_explicit_memset_trace (t : Target) (str : Nat) (c : Int) (n : Nat) (m : Mem) :
    (ay_explicit_memset t str c n m).trace =
      if t.HAVE_EXPLICIT_MEMSET then [Event.call_explicit_memset str c n]
      else if t.__STDC_LIB_EXT1__ then [Event.call_memset_s str n c n]
      else if c = 0 ∧ t._WIN32 then [Event.call_SecureZeroMemory str n]
      else if c = 0 ∧ t.HAVE_EXPLICIT_BZERO then [Event.call_explicit_bzero str n]
      else if t.__GNUC__ then
        Event.call_memset str c n ::
          ((if t.HAVE_WEAK_LINKING_SUPPORT ∧ t.weak_sym_to_avoid_optimization then
              [Event.call_weak_sym_to_avoid_optimization str n] else [])
            ++ [Event.asm_memory_barrier str])
      else (List.range n).map (fun i => Event.volatile_store (str + i) (unsigned_char c)) := by
  obtain ⟨f1, f2, f3, f4, f5, f6, f7⟩ := t
  by_cases h0 : c = 0
  · subst h0
    cases f1 <;> cases f2 <;> cases f3 <;> cases f4 <;> cases f5 <;> cases f6 <;> cases f7 <;>
      simp [ay_explicit_memset, zero_fill_fast_path, explicit_memset, memset_s, SecureZeroMemory,
        explicit_bzero, memset, weak_sym_to_avoid_optimization, asm_memory_barrier,
        trace_volatile_loop, List.range_eq_range']
  · cases f1 <;> cases f2 <;> cases f3 <;> cases f4 <;> cases f5 <;> cases f6 <;> cases f7 <;>
      simp [ay_explicit_memset, zero_fill_fast_path, explicit_memset, memset_s, h0,
        memset, weak_sym_to_avoid_optimization, asm_memory_barrier, trace_volatile_loop,
        List.range_eq_range']

/-- A byte of the requested region that lies in the memory holds
`(unsigned char)c` after the call. -/
theorem ay_explicit_memset_getElem?_region (t : Target) (str : Nat) (c : Int) (n : Nat) (m : Mem)
    (i : Nat) (hi : i < n) (hl : str + i < m.length) :
    (ay_explicit_memset t str c n m).mem[str + i]? = some (unsigned_char c) := by
  rw [ay_explicit_memset_mem, getElem?_fill_bytes]
  have h1 : str ≤ str + i ∧ str + i < str + n := by omega
  simp [h1, List.getElem?_eq_getElem hl]

theorem unsigned_char_cast (c : Int) : (unsigned_char c : Int) = c % 256 := by
  unfold unsigned_char
  exact Int.toNat_of_nonneg (Int.emod_nonneg c (by decide))

theorem unsigned_char_lt (c : Int) : unsigned_char c < 256 := by
  have h1 := unsigned_char_cast c
  have h2 : c % 256 < 256 := Int.emod_lt_of_pos c (by decide)
  omega

theorem unsigned_char_congr (c c' : Int) (h : c % 256 = c' % 256) :
    unsigned_char c = unsigned_char c' := by
  unfold unsigned_char
  rw [h]

theorem unsigned_char_emod (c : Int) : unsigned_char (c % 256) = unsigned_char c := by
  unfold unsigned_char
  rw [Int.emod_emod_of_dvd c (dvd_refl 256)]

/-! ## The test helpers -/

/-- A block whose first byte is zero is not the secret. -/
theorem memcmp_secret_ne_zero (m : Mem) (p : Nat) (h : m[p]? = some 0) :
    memcmp (read_bytes m p sizeof_secret) secret ≠ 0 := by
  have hp : p < m.length := by
    by_contra hc
    rw [List.getElem?_eq_none (by omega)] at h
    exact Option.noConfusion h
  have h0 : m[p] = 0 := by
    rw [List.getElem?_eq_getElem hp] at h
    exact Option.some.inj h
  have hd : m.drop p = m[p] :: m.drop (p + 1) := List.drop_eq_getElem_cons hp
  simp [read_bytes, hd, h0, sizeof_secret, secret, memcmp]

/-- The length of `k` consecutive copies of a block. -/
theorem length_flatten_replicate (k : Nat) (xs : List Nat) :
    (List.replicate k xs).flatten.length = k * xs.length := by
  induction k with
  | zero => simp
  | succ k ih => simp [List.replicate_succ, ih, Nat.succ_mul, Nat.add_comm]

/-- When no block from index `i` on is the secret the loop returns the
count it was entered with. -/
theorem count_secrets_loop_none (m : Mem) (buf i : Nat) (res : Int)
    (h : ∀ k, i ≤ k → k < SECRETCOUNT →
      memcmp (read_bytes m (buf + k * sizeof_secret) sizeof_secret) secret ≠ 0) :
    count_secrets_loop m buf i res = res := by
  generalize hk : SECRETCOUNT - i = d
  induction d generalizing i res with
  | zero =>
    unfold count_secrets_loop
    have h1 : ¬ i < SECRETCOUNT := by omega
    simp [h1]
  | succ d ih =>
    unfold count_secrets_loop
    have h1 : i < SECRETCOUNT := by omega
    simp only [h1, if_true, h i (le_refl i) h1, if_false]
    exact ih (i + 1) res (fun k hk1 hk2 => h k (by omega) hk2) (by omega)

/-! ## The contract of `ay_explicit_memset` -/

/-- C1: for every target, memory, int `c` and length `n` with the region
`[str, str+n)` inside the memory, after `ay_explicit_memset(str, c, n)` every
byte at index `i < n` of the region equals `(unsigned char)c`, which is
`c mod 256` taken in `0..255`. -/
theorem C1_fill_postcondition (t : Target) (m : Mem) (str : Nat) (c : Int) (n : Nat)
    (hb : str + n ≤ m.length) :
    (∀ i, i < n → (ay_explicit_memset t str c n m).mem[str + i]? = some (unsigned_char c))
      ∧ (unsigned_char c : Int) = c % 256 ∧ unsigned_char c < 256 := by
  refine ⟨fun i hi => ?_, unsigned_char_cast c, unsigned_char_lt c⟩
  rw [ay_explicit_memset_mem, getElem?_fill_bytes]
  have h1 : str ≤ str + i ∧ str + i < str + n := by omega
  have h2 : str + i < m.length := by omega
  simp [h1, List.getElem?_eq_getElem h2]

/-- C1 at the target with glibc and GCC, a four-byte memory and the call
`ay_explicit_memset(1, -1, 2)`. -/
theorem C1_fill_postcondition_witness :
    1 + 2 ≤ ([5, 6, 7, 8] : Mem).length ∧
    ((∀ i, i < 2 →
        (ay_explicit_memset ⟨false, false, false, true, true, true, false⟩ 1 (-1) 2
          [5, 6, 7, 8]).mem[1 + i]? = some (unsigned_char (-1)))
      ∧ (unsigned_char (-1) : Int) = (-1) % 256 ∧ unsigned_char (-1) < 256) :=
  ⟨by decide, C1_fill_postcondition ⟨false, false, false, true, true, true, false⟩
    [5, 6, 7, 8] 1 (-1) 2 (by decide)⟩

/-- C3: on every target, for every pointer `str`, int `c`, length `n` and
memory, `ay_explicit_memset(str, c, n)` returns `str`; this covers the
zero-fill fast path and the branch that returns the result of `memset`. -/
theorem C3_returns_str (t : Target) (m : Mem) (str : Nat) (c : Int) (n : Nat) :
    (ay_explicit_memset t str c n m).ret = str :=
  ay_explicit_memset_ret t str c n m

/-- C4: on every target `ay_explicit_memset(str, c, 0)` leaves the whole
memory as it was, makes no volatile store and returns `str`. -/
theorem C4_zero_length_noop (t : Target) (m : Mem) (str : Nat) (c : Int) :
    (ay_explicit_memset t str c 0 m).mem = m
      ∧ (∀ a v, Event.volatile_store a v ∉ (ay_explicit_memset t str c 0 m).trace)
      ∧ (ay_explicit_memset t str c 0 m).ret = str := by
  refine ⟨?_, fun a v => ay_explicit_memset_trace_zero t str c m a v,
    ay_explicit_memset_ret t str c 0 m⟩
  rw [ay_explicit_memset_mem, fill_bytes_zero]

/-- C5: the fill value is used modulo 256: every byte of the requested
region that lies in the memory holds `c mod 256`, taken in `0..255`, after
the call, so `-1` is written as `0xFF` and `256` as `0x00`; two ints congruent
modulo 256 leave the same memory, and `c` leaves the same memory as
`c mod 256`. -/
theorem C5_value_truncated (t : Target) (m : Mem) (str : Nat) (c c' : Int) (n : Nat)
    (h : c % 256 = c' % 256) :
    (ay_explicit_memset t str c n m).mem = (ay_explicit_memset t str c' n m).mem
      ∧ (ay_explicit_memset t str c n m).mem = (ay_explicit_memset t str (c % 256) n m).mem
      ∧ (0 ≤ c % 256 ∧ c % 256 < 256)
      ∧ (ay_explicit_memset t str (-1) n m).mem = (ay_explicit_memset t str 0xFF n m).mem
      ∧ (ay_explicit_memset t str 256 n m).mem = (ay_explicit_memset t str 0x00 n m).mem
      ∧ unsigned_char (-1) = 0xFF ∧ unsigned_char 256 = 0x00
      ∧ (∀ i, i < n → str + i < m.length →
          (ay_explicit_memset t str c n m).mem[str + i]? = some (c % 256).toNat
            ∧ (ay_explicit_memset t str c' n m).mem[str + i]? = some (c % 256).toNat
            ∧ (ay_explicit_memset t str (c % 256) n m).mem[str + i]? = some (c % 256).toNat
            ∧ (ay_explicit_memset t str (-1) n m).mem[str + i]? = some 0xFF
            ∧ (ay_explicit_memset t str 256 n m).mem[str + i]? = some 0x00) := by
  refine ⟨?_, ?_, ⟨Int.emod_nonneg c (by decide), Int.emod_lt_of_pos c (by decide)⟩, ?_, ?_,
    by decide, by decide, fun i hi hl => ⟨?_, ?_, ?_, ?_, ?_⟩⟩
  · rw [ay_explicit_memset_mem, ay_explicit_memset_mem, unsigned_char_congr c c' h]
  · rw [ay_explicit_memset_mem, ay_explicit_memset_mem, unsigned_char_emod]
  · rw [ay_explicit_memset_mem, ay_explicit_memset_mem]
    rfl
  · rw [ay_explicit_memset_mem, ay_explicit_memset_mem]
    rfl
  · exact ay_explicit_memset_getElem?_region t str c n m i hi hl
  · rw [ay_explicit_memset_getElem?_region t str c' n m i hi hl, unsigned_char_congr c' c h.symm]
    rfl
  · rw [ay_explicit_memset_getElem?_region t str (c % 256) n m i hi hl, unsigned_char_emod]
    rfl
  · exact ay_explicit_memset_getElem?_region t str (-1) n m i hi hl
  · exact ay_explicit_memset_getElem?_region t str 256 n m i hi hl

/-- C5 at `c = 256` and `c' = 0` on a Windows target, where one call takes
the generic path and the other the zero-fill fast path: the two memories
agree, and byte 1 of the memory, the first of the region, holds `0x00` after
the calls with 256 and 0 and `0xFF` after the call with -1. -/
theorem C5_value_truncated_witness :
    (256 : Int) % 256 = 0 % 256 ∧
    (ay_explicit_memset ⟨false, false, true, false, false, false, false⟩ 1 256 2 [5, 6, 7, 8]).mem
      = (ay_explicit_memset ⟨false, false, true, false, false, false, false⟩ 1 0 2 [5, 6, 7, 8]).mem ∧
    (0 : Nat) < 2 ∧ 1 + 0 < ([5, 6, 7, 8] : Mem).length ∧
    ((ay_explicit_memset ⟨false, false, true, false, false, false, false⟩ 1 256 2 [5, 6, 7, 8]).mem[1 + 0]? = some ((256 : Int) % 256).toNat
      ∧ (ay_explicit_memset ⟨false, false, true, false, false, false, false⟩ 1 0 2 [5, 6, 7, 8]).mem[1 + 0]? = some ((256 : Int) % 256).toNat
      ∧ (ay_explicit_memset ⟨false, false, true, false, false, false, false⟩ 1 (256 % 256) 2 [5, 6, 7, 8]).mem[1 + 0]?
          = some ((256 : Int) % 256).toNat
      ∧ (ay_explicit_memset ⟨false, false, true, false, false, false, false⟩ 1 (-1) 2 [5, 6, 7, 8]).mem[1 + 0]? = some 0xFF
      ∧ (ay_explicit_memset ⟨false, false, true, false, false, false, false⟩ 1 256 2 [5, 6, 7, 8]).mem[1 + 0]? = some 0x00) :=
  ⟨by decide,
    (C5_value_truncated ⟨false, false, true, false, false, false, false⟩ [5, 6, 7, 8] 1 256 0 2 (by decide)).1,
    by decide, by decide,
    (C5_value_truncated ⟨false, false, true, false, false, false, false⟩ [5, 6, 7, 8] 1 256 0 2 (by decide)).2.2.2.2.2.2.2 0
      (by decide) (by decide)⟩

/-- C6: for an in-bounds region, calling `ay_explicit_memset(str, c, n)` a
second time, on the memory the first call left, gives the same memory and
the same returned pointer as the first call. -/
theorem C6_idempotent (t : Target) (m : Mem) (str : Nat) (c : Int) (n : Nat)
    (hb : str + n ≤ m.length) :
    (ay_explicit_memset t str c n (ay_explicit_memset t str c n m).mem).mem
        = (ay_explicit_memset t str c n m).mem
      ∧ (ay_explicit_memset t str c n (ay_explicit_memset t str c n m).mem).ret
        = (ay_explicit_memset t str c n m).ret := by
  have _ := hb
  refine ⟨?_, ?_⟩
  · simp only [ay_explicit_memset_mem, fill_bytes_idem]
  · simp only [ay_explicit_memset_ret]

/-- C6 on the fallback target with a four-byte memory and the call
`ay_explicit_memset(1, 7, 2)`. -/
theorem C6_idempotent_witness :
    1 + 2 ≤ ([5, 6, 7, 8] : Mem).length ∧
    ((ay_explicit_memset fallback_target 1 7 2
        (ay_explicit_memset fallback_target 1 7 2 [5, 6, 7, 8]).mem).mem
        = (ay_explicit_memset fallback_target 1 7 2 [5, 6, 7, 8]).mem
      ∧ (ay_explicit_memset fallback_target 1 7 2
        (ay_explicit_memset fallback_target 1 7 2 [5, 6, 7, 8]).mem).ret
        = (ay_explicit_memset fallback_target 1 7 2 [5, 6, 7, 8]).ret) :=
  ⟨by decide, C6_idempotent fallback_target [5, 6, 7, 8] 1 7 2 (by decide)⟩

/-- C7: for every memory holding a buffer of `SECRETBYTES` = 64 * 16 bytes
at `buf`, after `ay_explicit_memset(buf, 0, SECRETBYTES)` on any target
`count_secrets(buf)` is 0: none of the 64 blocks equals `secret`. -/
theorem C7_no_secret_left (t : Target) (m : Mem) (buf : Nat)
    (hb : buf + SECRETBYTES ≤ m.length) :
    SECRETBYTES = 64 * 16
      ∧ count_secrets (ay_explicit_memset t buf 0 SECRETBYTES m).mem buf = 0 := by
  refine ⟨by decide, ?_⟩
  unfold count_secrets
  apply count_secrets_loop_none
  intro k _ hk
  apply memcmp_secret_ne_zero
  rw [ay_explicit_memset_mem, getElem?_fill_bytes]
  have e1 : SECRETBYTES = 1024 := by decide
  have e2 : sizeof_secret = 16 := by decide
  have e3 : SECRETCOUNT = 64 := by decide
  rw [e1] at hb
  rw [e3] at hk
  rw [e1, e2]
  have h1 : buf ≤ buf + k * 16 ∧ buf + k * 16 < buf + 1024 := by omega
  have h2 : buf + k * 16 < m.length := by omega
  simp [h1, List.getElem?_eq_getElem h2, unsigned_char_zero]

/-- C7 on the buffer of the test: 64 consecutive copies of `secret`, cleared
by the volatile loop. -/
theorem C7_no_secret_left_witness :
    0 + SECRETBYTES ≤ ((List.replicate SECRETCOUNT secret).flatten : Mem).length ∧
    (SECRETBYTES = 64 * 16
      ∧ count_secrets (ay_explicit_memset fallback_target 0 0 SECRETBYTES
          (List.replicate SECRETCOUNT secret).flatten).mem 0 = 0) :=
  ⟨by rw [length_flatten_replicate]; decide,
    C7_no_secret_left fallback_target (List.replicate SECRETCOUNT secret).flatten 0
      (by rw [length_flatten_replicate]; decide)⟩

/-- C8 as stated fails: with glibc and GCC (`HAVE_EXPLICIT_BZERO`, `__GNUC__`,
`HAVE_WEAK_LINKING_SUPPORT`) the call with `c = 0` runs `explicit_bzero` and
the call with `c = 1` runs `memset` and the barrier; on Windows without GCC
the two calls run `SecureZeroMemory` and the volatile loop. -/
theorem C8_counterexample :
    (ay_explicit_memset ⟨false, false, false, true, true, true, false⟩ 0 0 1 [5]).strategy
        = Strategy.explicit_bzero
      ∧ (ay_explicit_memset ⟨false, false, false, true, true, true, false⟩ 0 1 1 [5]).strategy
        = Strategy.memset_barrier
      ∧ (ay_explicit_memset ⟨false, false, true, false, false, false, false⟩ 0 0 1 [5]).strategy
        = Strategy.SecureZeroMemory
      ∧ (ay_explicit_memset ⟨false, false, true, false, false, false, false⟩ 0 1 1 [5]).strategy
        = Strategy.volatile_loop
      ∧ ¬ (∀ (t : Target) (str str' : Nat) (c c' : Int) (n n' : Nat) (m m' : Mem),
          (ay_explicit_memset t str c n m).strategy
            = (ay_explicit_memset t str' c' n' m').strategy) := by
  refine ⟨by decide, by decide, by decide, by decide, fun h => ?_⟩
  have h1 := h ⟨false, false, true, false, false, false, false⟩ 0 0 0 1 1 1 [5] [5]
  revert h1
  decide

/-- C8 amended: the strategy of a call is fixed by the target together
with the test `c == 0`.  Which one runs: `explicit_memset` when
`HAVE_EXPLICIT_MEMSET` is defined; else `memset_s` when `__STDC_LIB_EXT1__`
is; else, for `c == 0`, `SecureZeroMemory` when `_WIN32` is defined and
`explicit_bzero` when `HAVE_EXPLICIT_BZERO` is; else `memset` and the barrier
when `__GNUC__` is defined, and the volatile loop when it is not.  The calls
the function makes are those of that strategy.  So two calls on one target
whose fill values are both zero or both nonzero run the same strategy,
whatever their pointers, lengths and memories; and on a target with
`HAVE_EXPLICIT_MEMSET` or `__STDC_LIB_EXT1__`, or with neither `_WIN32` nor
`HAVE_EXPLICIT_BZERO`, any two calls do. -/
theorem C8_strategy_fixed_by_flags_and_zero_test (t : Target) (str str' : Nat) (c c' : Int)
    (n n' : Nat) (m m' : Mem) :
    ((c = 0 ↔ c' = 0) →
        (ay_explicit_memset t str c n m).strategy
          = (ay_explicit_memset t str' c' n' m').strategy)
      ∧ ((t.HAVE_EXPLICIT_MEMSET = true ∨ t.__STDC_LIB_EXT1__ = true
            ∨ (t._WIN32 = false ∧ t.HAVE_EXPLICIT_BZERO = false)) →
        (ay_explicit_memset t str c n m).strategy
          = (ay_explicit_memset t str' c' n' m').strategy)
      ∧ (ay_explicit_memset t str c n m).strategy =
          (if t.HAVE_EXPLICIT_MEMSET then Strategy.explicit_memset
           else if t.__STDC_LIB_EXT1__ then Strategy.memset_s
           else if c = 0 ∧ t._WIN32 then Strategy.SecureZeroMemory
           else if c = 0 ∧ t.HAVE_EXPLICIT_BZERO then Strategy.explicit_bzero
           else if t.__GNUC__ then Strategy.memset_barrier
           else Strategy.volatile_loop)
      ∧ (ay_explicit_memset t str c n m).trace =
          (if t.HAVE_EXPLICIT_MEMSET then [Event.call_explicit_memset str c n]
           else if t.__STDC_LIB_EXT1__ then [Event.call_memset_s str n c n]
           else if c = 0 ∧ t._WIN32 then [Event.call_SecureZeroMemory str n]
           else if c = 0 ∧ t.HAVE_EXPLICIT_BZERO then [Event.call_explicit_bzero str n]
           else if t.__GNUC__ then
             Event.call_memset str c n ::
               ((if t.HAVE_WEAK_LINKING_SUPPORT ∧ t.weak_sym_to_avoid_optimization then
                   [Event.call_weak_sym_to_avoid_optimization str n] else [])
                 ++ [Event.asm_memory_barrier str])
           else (List.range n).map
             (fun i => Event.volatile_store (str + i) (unsigned_char c))) := by
  refine ⟨fun h => ?_, fun h => ?_, ay_explicit_memset_strategy t str c n m,
    ay_explicit_memset_trace t str c n m⟩
  · rw [ay_explicit_memset_strategy, ay_explicit_memset_strategy]
    by_cases h0 : c = 0
    · have h0' : c' = 0 := h.mp h0
      simp [h0, h0']
    · have h0' : ¬ c' = 0 := fun hc => h0 (h.mpr hc)
      simp [h0, h0']
  · rw [ay_explicit_memset_strategy, ay_explicit_memset_strategy]
    rcases h with h | h | ⟨h1, h2⟩
    · simp [h]
    · simp [h]
    · simp [h1, h2]

/-- C8 amended, at the glibc and GCC target for the fill values 1 and 2, and
at the fallback target for the fill values 0 and 1. -/
theorem C8_strategy_fixed_by_flags_and_zero_test_witness :
    (((1 : Int) = 0 ↔ (2 : Int) = 0) ∧
      (ay_explicit_memset ⟨false, false, false, true, true, true, false⟩ 0 1 1 [5]).strategy
        = (ay_explicit_memset ⟨false, false, false, true, true, true, false⟩ 1 2 3 [5, 6, 7, 8]).strategy)
    ∧ ((fallback_target.HAVE_EXPLICIT_MEMSET = true ∨ fallback_target.__STDC_LIB_EXT1__ = true
          ∨ (fallback_target._WIN32 = false ∧ fallback_target.HAVE_EXPLICIT_BZERO = false)) ∧
      (ay_explicit_memset fallback_target 0 0 1 [5]).strategy
        = (ay_explicit_memset fallback_target 1 1 3 [5, 6, 7, 8]).strategy) :=
  ⟨⟨by decide,
    (C8_strategy_fixed_by_flags_and_zero_test ⟨false, false, false, true, true, true, false⟩ 0 1 1 2 1 3 [5] [5, 6, 7, 8]).1 (by decide)⟩,
   ⟨by decide,
    (C8_strategy_fixed_by_flags_and_zero_test fallback_target 0 1 0 1 1 3 [5]
      [5, 6, 7, 8]).2.1 (by decide)⟩⟩

/-- C9: on every target, for an in-bounds region, the final memory and the
returned pointer of `ay_explicit_memset(str, c, n)` are those of the volatile
byte-by-byte loop (the function compiled for the fallback target); the
zero-fill fast path runs only when `c` is 0, and its result is the one any
target gives for any `c'` congruent to 0 modulo 256. -/
theorem C9_strategies_equivalent (t : Target) (m : Mem) (str : Nat) (c : Int) (n : Nat)
    (hb : str + n ≤ m.length) :
    (ay_explicit_memset t str c n m).mem = (volatile_loop str c n 0 ⟨m, []⟩).mem
      ∧ (ay_explicit_memset t str c n m).mem = (ay_explicit_memset fallback_target str c n m).mem
      ∧ (ay_explicit_memset t str c n m).ret = (ay_explicit_memset fallback_target str c n m).ret
      ∧ (ay_explicit_memset fallback_target str c n m).strategy = Strategy.volatile_loop
      ∧ (((ay_explicit_memset t str c n m).strategy = Strategy.SecureZeroMemory
            ∨ (ay_explicit_memset t str c n m).strategy = Strategy.explicit_bzero) → c = 0)
      ∧ (∀ (t' : Target) (c' : Int), c' % 256 = 0 →
          (ay_explicit_memset t str 0 n m).mem = (ay_explicit_memset t' str c' n m).mem
            ∧ (ay_explicit_memset t str 0 n m).ret = (ay_explicit_memset t' str c' n m).ret) := by
  have _ := hb
  refine ⟨?_, ?_, ?_, ?_, ?_, ?_⟩
  · rw [ay_explicit_memset_mem, volatile_loop_mem]
  · simp only [ay_explicit_memset_mem]
  · simp only [ay_explicit_memset_ret]
  · rw [ay_explicit_memset_strategy]
    simp [fallback_target]
  · rw [ay_explicit_memset_strategy]
    by_cases h0 : c = 0
    · exact fun _ => h0
    · intro h
      obtain ⟨f1, f2, f3, f4, f5, f6, f7⟩ := t
      revert h
      cases f1 <;> cases f2 <;> cases f5 <;> simp [h0]
  · intro t' c' hc
    refine ⟨?_, ?_⟩
    · rw [ay_explicit_memset_mem, ay_explicit_memset_mem,
        unsigned_char_congr c' 0 (by rw [hc]; rfl)]
    · simp only [ay_explicit_memset_ret]

/-- C9 at the Windows target with GCC, a four-byte memory and the call
`ay_explicit_memset(1, 0, 2)`: it runs `SecureZeroMemory`, and leaves what
the volatile loop leaves for `c = 0` and for `c = 256`. -/
theorem C9_strategies_equivalent_witness :
    1 + 2 ≤ ([5, 6, 7, 8] : Mem).length ∧
    (ay_explicit_memset ⟨false, false, true, false, true, true, false⟩ 1 0 2 [5, 6, 7, 8]).mem
      = (volatile_loop 1 0 2 0 ⟨[5, 6, 7, 8], []⟩).mem ∧
    (ay_explicit_memset ⟨false, false, true, false, true, true, false⟩ 1 0 2
      [5, 6, 7, 8]).strategy = Strategy.SecureZeroMemory ∧
    (0 : Int) = 0 ∧
    (256 : Int) % 256 = 0 ∧
    (ay_explicit_memset ⟨false, false, true, false, true, true, false⟩ 1 0 2 [5, 6, 7, 8]).mem
      = (ay_explicit_memset fallback_target 1 256 2 [5, 6, 7, 8]).mem :=
  ⟨by decide,
    (C9_strategies_equivalent ⟨false, false, true, false, true, true, false⟩ [5, 6, 7, 8] 1 0 2
      (by decide)).1,
    by decide,
    (C9_strategies_equivalent ⟨false, false, true, false, true, true, false⟩ [5, 6, 7, 8] 1 0 2
      (by decide)).2.2.2.2.1 (Or.inl (by decide)),
    by decide,
    ((C9_strategies_equivalent ⟨false, false, true, false, true, true, false⟩ [5, 6, 7, 8] 1 0 2
      (by decide)).2.2.2.2.2 fallback_target 256 (by decide)).1⟩

/-- C10: for a region `[str, str+n)` inside the memory, on every target, each
byte at an address outside the region is the same after the call as before,
the memory keeps its size, and a call that runs the volatile loop makes
exactly `n` volatile stores, of `(unsigned char)c`, at the indices
0, 1, ..., n-1 of the region in this order, and nothing else. -/
theorem C10_frame_and_loop_stores (t : Target) (m : Mem) (str : Nat) (c : Int) (n : Nat)
    (hb : str + n ≤ m.length) :
    (∀ a, (a < str ∨ str + n ≤ a) → (ay_explicit_memset t str c n m).mem[a]? = m[a]?)
      ∧ (ay_explicit_memset t str c n m).mem.length = m.length
      ∧ ((ay_explicit_memset t str c n m).strategy = Strategy.volatile_loop →
          (ay_explicit_memset t str c n m).trace
            = (List.range n).map (fun i => Event.volatile_store (str + i) (unsigned_char c))
          ∧ (ay_explicit_memset t str c n m).trace.length = n) := by
  have _ := hb
  refine ⟨fun a ha => ?_, ?_, fun h => ?_⟩
  · rw [ay_explicit_memset_mem, getElem?_fill_bytes]
    have h1 : ¬ (str ≤ a ∧ a < str + n) := by omega
    simp [h1]
  · rw [ay_explicit_memset_mem, length_fill_bytes]
  · rw [ay_explicit_memset_trace_loop t str c n m h]
    simp

/-- C10 on the fallback target with a four-byte memory and the call
`ay_explicit_memset(1, -1, 2)`: the two stores of the loop. -/
theorem C10_frame_and_loop_stores_witness :
    1 + 2 ≤ ([5, 6, 7, 8] : Mem).length ∧
    (ay_explicit_memset fallback_target 1 (-1) 2 [5, 6, 7, 8]).strategy = Strategy.volatile_loop ∧
    ((ay_explicit_memset fallback_target 1 (-1) 2 [5, 6, 7, 8]).trace
        = (List.range 2).map (fun i => Event.volatile_store (1 + i) (unsigned_char (-1)))
      ∧ (ay_explicit_memset fallback_target 1 (-1) 2 [5, 6, 7, 8]).trace.length = 2) :=
  ⟨by decide, by decide,
    (C10_frame_and_loop_stores fallback_target [5, 6, 7, 8] 1 (-1) 2 (by decide)).2.2
      (by decide)⟩

end AyExplicitMemset
